import Mathlib

/-!
# authd: pidfile store, session liveness check and renewal loop

A shallow embedding of `authd.c`.  C strings are lists of bytes (written as
`Char`), without their terminating NUL.  The filesystem is an association list
from path strings to nodes; path strings are looked up literally, which is
exact for the canonical absolute paths `pidfilename` builds.  Permission bits
are not modelled.  Calls into libc (`dirname`, `snprintf`, `atoi`, `getline`,
`strcmp`) and the system calls are modelled after their POSIX descriptions.
-/

namespace Authd

/-! ## Constants -/

/-- Polling interval, `#define LOOP_INTERVAL 60`. -/
def LOOP_INTERVAL : Nat := 60

/-- Renewal interval, `#define KINIT_INTERVAL 3600`. -/
def KINIT_INTERVAL : Nat := 3600

/-- Size of the static path buffer: `PATH_MAX` of `<limits.h>` on Linux. -/
def PATH_MAX : Nat := 4096

def ENOENT : Nat := 2
def EBUSY : Nat := 16
def EEXIST : Nat := 17
def ENOTDIR : Nat := 20
def EISDIR : Nat := 21
def EINVAL : Nat := 22
def ENOTEMPTY : Nat := 39

/-! ## C strings and libc helpers -/

/-- A C string: its bytes up to, not including, the terminating NUL. -/
abbrev CStr := List Char

/-- The newline byte. -/
def NL : Char := Char.ofNat 10

/-- The NUL byte. -/
def NUL : Char := Char.ofNat 0

def slash : Char := '/'

/-- The string "/tmp/authd-", the fixed head of the format in `pidfilename`. -/
def tmp_authd : CStr := ['/', 't', 'm', 'p', '/', 'a', 'u', 't', 'h', 'd', '-']

/-- The decimal digit `d` (for `d < 10`) as a byte. -/
def digitChar (d : Nat) : Char := Char.ofNat (48 + d)

/-- Decimal digits of `n`, most significant first; `fuel` bounds the number of digits. -/
def fmt_d_fuel : Nat → Nat → CStr
  | 0, _ => []
  | fuel + 1, n =>
    if n < 10 then [digitChar n] else fmt_d_fuel fuel (n / 10) ++ [digitChar (n % 10)]

/-- The text `printf("%d", n)` produces for a non-negative `n`. -/
def fmt_d (n : Nat) : CStr := fmt_d_fuel (n + 1) n

/-- The libc `isspace` in the C locale. -/
def isspace (c : Char) : Bool := c.toNat = 32 || (9 ≤ c.toNat && c.toNat ≤ 13)

/-- The libc `isdigit`. -/
def isdigit (c : Char) : Bool := 48 ≤ c.toNat && c.toNat ≤ 57

/-- Value of the leading run of decimal digits of `s`, continuing from `acc`. -/
def digits_value : CStr → Nat → Nat
  | [], acc => acc
  | c :: cs, acc => if isdigit c then digits_value cs (acc * 10 + (c.toNat - 48)) else acc

/-- The libc `strtol(s, NULL, 10)` on an LP64 machine: leading white space, an
optional sign, digits; the value saturates at the range of `long`. -/
def strtol (s : CStr) : Int :=
  match s.dropWhile isspace with
  | [] => 0
  | c :: r =>
    if c = '-' then max (-(2 ^ 63 : Int)) (-(digits_value r 0 : Int))
    else if c = '+' then min (2 ^ 63 - 1 : Int) (digits_value r 0 : Int)
    else min (2 ^ 63 - 1 : Int) (digits_value (c :: r) 0 : Int)

/-- Conversion of a `long` to a 32-bit `int`. -/
def to_int (z : Int) : Int := (z + 2 ^ 31) % 2 ^ 32 - 2 ^ 31

/-- The libc `atoi`: `(int) strtol(s, NULL, 10)`. -/
def atoi (s : CStr) : Int := to_int (strtol s)

/-- The libc `getline` on the start of a stream holding `data`: the first line
with its newline, or `none` at end of file. -/
def getline (data : List Char) : Option CStr :=
  if data = [] then none
  else
    let l := data.takeWhile (fun c => c ≠ NL)
    some (l ++ (data.drop l.length).take 1)

/-- A reversed path without its leading slashes (the trailing ones of the path). -/
def strip_slashes (r : List Char) : List Char := r.dropWhile (fun c => c = slash)

/-- A reversed path without its leading component (the last one of the path). -/
def drop_component (r : List Char) : List Char := r.dropWhile (fun c => c ≠ slash)

/-- The libc (POSIX) `dirname`. -/
def dirname (p : CStr) : CStr :=
  let r := strip_slashes p.reverse
  if r = [] then (if p = [] then ['.'] else [slash])
  else
    let r2 := drop_component r
    if r2 = [] then ['.']
    else
      let r3 := strip_slashes r2
      if r3 = [] then [slash] else r3.reverse

/-- The bytes `snprintf(buf, size, ...)` stores before the NUL, given the full
formatted text. -/
def snprintf (size : Nat) (text : CStr) : CStr := text.take (size - 1)

/-! ## Filesystem -/

/-- A filesystem node: a directory or a regular file with its contents. -/
inductive Node where
  | dir : Node
  | reg (data : List Char) : Node
  deriving DecidableEq, Repr

/-- The filesystem: path strings with their nodes. -/
abbrev FS := List (CStr × Node)

/-- The node at path `p`, if any. -/
def FS.lookup (fs : FS) (p : CStr) : Option Node :=
  match fs with
  | [] => none
  | (q, n) :: rest => if q = p then some n else FS.lookup rest p

/-- The filesystem without the entry at `p`. -/
def FS.remove : FS → CStr → FS
  | [], _ => []
  | (q, n) :: rest, p => if q = p then FS.remove rest p else (q, n) :: FS.remove rest p

/-- Whether directory `d` has an entry other than itself. -/
def FS.has_child : FS → CStr → Bool
  | [], _ => false
  | (q, _) :: rest, d => if q ≠ d ∧ dirname q = d then true else FS.has_child rest d

/-- The system call `mkdir(d, 0700)`: the new filesystem or an errno. -/
def mkdir (d : CStr) (fs : FS) : Except Nat FS :=
  if d = [] then .error ENOENT
  else match fs.lookup d with
    | some _ => .error EEXIST
    | none =>
      match fs.lookup (dirname d) with
      | some .dir => .ok ((d, .dir) :: fs)
      | some (.reg _) => .error ENOTDIR
      | none => .error ENOENT

/-- The system call `open(p, O_CREAT|O_EXCL|O_WRONLY, 0600)`: the filesystem
with a new empty file at `p`, or an errno. -/
def open_excl (p : CStr) (fs : FS) : Except Nat FS :=
  if p = [] then .error ENOENT
  else match fs.lookup p with
    | some _ => .error EEXIST
    | none =>
      match fs.lookup (dirname p) with
      | some .dir => .ok ((p, .reg []) :: fs)
      | some (.reg _) => .error ENOTDIR
      | none => .error ENOENT

/-- What appending `data` to the file at `p` does to the node at path `q`. -/
def written (p q : CStr) (data : List Char) : Node → Node
  | .reg old => if q = p then .reg (old ++ data) else .reg old
  | .dir => .dir

/-- The system call `write` on a descriptor open on the file at `p`: appends
`data` to the file. -/
def write_fd (p : CStr) (data : List Char) : FS → FS
  | [] => []
  | (q, n) :: rest => (q, written p q data n) :: write_fd p data rest

/-- The system call `unlink(p)`. -/
def unlink (p : CStr) (fs : FS) : Except Nat FS :=
  match fs.lookup p with
  | some (.reg _) => .ok (fs.remove p)
  | some .dir => .error EISDIR
  | none => .error ENOENT

/-- The system call `rmdir(d)`. -/
def rmdir (d : CStr) (fs : FS) : Except Nat FS :=
  if d = ['.'] then .error EINVAL
  else if d = [slash] then .error EBUSY
  else match fs.lookup d with
    | none => .error ENOENT
    | some (.reg _) => .error ENOTDIR
    | some .dir => if fs.has_child d then .error ENOTEMPTY else .ok (fs.remove d)

/-- The filesystem after a call whose failure the caller ignores. -/
def ignore_errno (r : Except Nat FS) (fs : FS) : FS :=
  match r with
  | .ok fs1 => fs1
  | .error _ => fs

/-- Every entry has a name and lies in a directory of the filesystem. -/
def FS.wf (fs : FS) : Prop := ∀ e ∈ fs, e.1 ≠ [] ∧ fs.lookup (dirname e.1) = some .dir

/-- A directory for `file` exists or can be made: the state in which the
`mkdir` of `write_pidfile` does not fail unexpectedly. -/
def dir_ready (fs : FS) (file : CStr) : Prop :=
  fs.lookup (dirname file) = some .dir ∨
    (fs.lookup (dirname file) = none ∧ fs.lookup (dirname (dirname file)) = some .dir)

/-! ## The pidfile store -/

/-- The process environment: the value of `LOGNAME`, if set. -/
structure Env where
  LOGNAME : Option CStr

/-- The function `pidfilename(name)`: the returned pointer (`none` for a null pointer,
otherwise the text it points to) and the static buffer `pidfile` afterwards.
A null `name` is `none`. -/
def pidfilename (env : Env) (name : Option CStr) (pidfile : CStr) : Option CStr × CStr :=
  match name with
  | none => (some pidfile, pidfile)
  | some nm =>
    match env.LOGNAME with
    | none => (none, pidfile)
    | some logname =>
      let buf := snprintf PATH_MAX (tmp_authd ++ logname ++ [slash] ++ nm)
      (some buf, buf)

/-- The part of `write_pidfile` from the `open` on, run by the process `pid`:
the return value and the filesystem afterwards. -/
def write_pidfile_open (pid : Nat) (file : CStr) (fs : FS) : Int × FS :=
  match open_excl file fs with
  | .error e => if e = EEXIST then ((EEXIST : Int), fs) else (-1, fs)
  | .ok fs1 => (0, write_fd file (fmt_d pid ++ [NL]) fs1)

/-- The function `write_pidfile(file)` run by the process `pid`: the return
value and the filesystem afterwards. -/
def write_pidfile (env : Env) (pid : Nat) (file : CStr) (fs : FS) : Int × FS :=
  match env.LOGNAME with
  | none => (-1, fs)
  | some _ =>
    let dir := dirname file
    match mkdir dir fs with
    | .error e => if e ≠ EEXIST then (-1, fs) else write_pidfile_open pid file fs
    | .ok fs1 => write_pidfile_open pid file fs1

/-- The function `read_pidfile(file)`. -/
def read_pidfile (file : CStr) (fs : FS) : Int :=
  match fs.lookup file with
  | none => -1
  | some .dir => -2
  | some (.reg data) =>
    match getline data with
    | none => -2
    | some line => atoi line

/-- The function `destroy_pidfile()`, with `pidfile` the contents of the static buffer that
`pidfilename(0)` returns. -/
def destroy_pidfile (pidfile : CStr) (fs : FS) : FS :=
  let dir := dirname pidfile
  let fs1 := ignore_errno (unlink pidfile fs) fs
  ignore_errno (rmdir dir fs1) fs1

/-! ## Session liveness -/

/-- The buffer `buf` after `read(fd, buf, n)` on a fresh descriptor of a file
holding `text`: the first `n` bytes of the file overwrite the start of the
buffer, the rest of the buffer keeps its previous bytes. -/
def read_into (text : List Char) (buf : List Char) (n : Nat) : List Char :=
  text.take n ++ buf.drop (text.take n).length

/-- The libc `strcmp` on two buffers: compares up to the first NUL or the first
difference; `none` when the comparison runs past the end of a buffer. -/
def strcmp : List Char → List Char → Option Int
  | [], _ => none
  | _ :: _, [] => none
  | a :: as, b :: bs =>
    if a ≠ b then some ((a.toNat : Int) - (b.toNat : Int))
    else if a = NUL then some 0
    else strcmp as bs

/-- What the daemon can observe of the system at one moment. -/
structure Sys where
  /-- Whether `kill(pid, 0)` succeeds. -/
  kill0 : Nat → Bool
  /-- Contents of `/proc/<pid>/cmdline`; `none` when it cannot be opened. -/
  proc_cmdline : Nat → Option (List Char)
  /-- The bytes of the stack buffer `seen_cmdline` before the read. -/
  stack : List Char
  /-- Exit status of `system("kinit -R > /dev/null")`. -/
  kinit : Int

/-- The function `read_ppid_cmdline(pid, buf, bufsz)` when the open succeeds: the buffer afterwards. -/
def read_ppid_cmdline (text : List Char) (buf : List Char) (bufsz : Nat) : List Char :=
  read_into text buf bufsz

/-- The function `check_parent(gp_pid, cmdline)`: `some true` for 1, `some false` for 0,
`none` when `strcmp` runs past the end of a buffer. -/
def check_parent (gp_pid : Nat) (cmdline : List Char) (s : Sys) : Option Bool :=
  if s.kill0 gp_pid = false then some false
  else
    match s.proc_cmdline gp_pid with
    | none => some false
    | some text =>
      let seen_cmdline := read_into text s.stack 1000
      match strcmp cmdline seen_cmdline with
      | none => none
      | some r => if r ≠ 0 then some false else some true

/-! ## The main loop -/

/-- What one pass of the loop does, in program order. -/
inductive Ev where
  | kinit (status : Int) : Ev
  | aklog : Ev
  | check (alive : Bool) : Ev
  | sleep : Ev
  deriving DecidableEq, Repr

/-- One pass of the loop of `child_loop`. -/
structure Pass where
  /-- Value of `loop_count` at the top of the pass. -/
  loop_count : Nat
  /-- What the pass did, in program order. -/
  events : List Ev
  /-- Value of `loop_count` after the schedule test. -/
  loop_count_after : Nat
  deriving DecidableEq, Repr

/-- How a run of the loop ended. -/
inductive Exit where
  | returned : Exit
  | fault : Exit
  | running : Exit
  deriving DecidableEq, Repr

/-- The renewal commands: `kinit -R`, then `aklog` when `kinit` succeeded. -/
def renewal (s : Sys) : List Ev :=
  if s.kinit = 0 then [.kinit s.kinit, .aklog] else [.kinit s.kinit]

/-- The loop of `child_loop` from pass `i` with the given `loop_count`, for at
most `fuel` passes; `w i` is the system as seen during pass `i`. -/
def child_loop_from (w : Nat → Sys) (gp_pid : Nat) (cmdline : List Char) :
    Nat → Nat → Nat → List Pass × Exit
  | 0, _, _ => ([], .running)
  | fuel + 1, i, loop_count =>
    let due : Bool := decide (loop_count * LOOP_INTERVAL ≥ KINIT_INTERVAL)
    let loop_count1 := if due then 0 else loop_count
    let evs := if due then renewal (w i) else []
    match check_parent gp_pid cmdline (w i) with
    | none => ([⟨loop_count, evs, loop_count1⟩], .fault)
    | some false => ([⟨loop_count, evs ++ [.check false], loop_count1⟩], .returned)
    | some true =>
      let r := child_loop_from w gp_pid cmdline fuel (i + 1) (loop_count1 + 1)
      (⟨loop_count, evs ++ [.check true, .sleep], loop_count1⟩ :: r.1, r.2)

/-- The function `child_loop(gp_pid, cmdline)`, run for at most `fuel` passes. -/
def child_loop (w : Nat → Sys) (gp_pid : Nat) (cmdline : List Char) (fuel : Nat) :
    List Pass × Exit :=
  child_loop_from w gp_pid cmdline fuel 0 0

/-- Whether an event is a run of the renewal command `kinit -R`. -/
def Ev.is_kinit : Ev → Bool
  | .kinit _ => true
  | _ => false

/-- Whether a pass ran the renewal command. -/
def Pass.renewed (p : Pass) : Bool := p.events.any Ev.is_kinit

/-! ## The daemon -/

/-- How the child branch of `main` ended. -/
inductive Outcome where
  | exited (status : Nat) : Outcome
  | crashed : Outcome
  | running : Outcome
  deriving DecidableEq, Repr

/-- What the child branch of `main` leaves behind. -/
structure Run where
  /-- How the process ended. -/
  outcome : Outcome
  /-- The filesystem afterwards. -/
  fs : FS
  /-- The static buffer `pidfile` afterwards. -/
  pidfile : CStr
  /-- The passes of the loop. -/
  passes : List Pass
  /-- The pid named in the message "authd appears to already be running". -/
  other_pid : Option Int

/-- The child branch of `main` (after `fork` returned 0), run by process `pid`
in session `ppid` with the captured `cmdline`.  A null result of `pidfilename`
makes `write_pidfile` dereference a null pointer. -/
def main_child (env : Env) (w : Nat → Sys) (fuel : Nat) (pid ppid : Nat)
    (cmdline : List Char) (fs : FS) : Run :=
  let pidstr := fmt_d ppid
  match pidfilename env (some pidstr) [] with
  | (none, pidfile) => ⟨.crashed, fs, pidfile, [], none⟩
  | (some file, pidfile) =>
    let rv := write_pidfile env pid file fs
    if rv.1 = 0 then
      let r := child_loop w ppid cmdline fuel
      match r.2 with
      | .returned => ⟨.exited 0, destroy_pidfile pidfile rv.2, pidfile, r.1, none⟩
      | .fault => ⟨.crashed, rv.2, pidfile, r.1, none⟩
      | .running => ⟨.running, rv.2, pidfile, r.1, none⟩
    else if rv.1 > 0 then
      match pidfilename env none pidfile with
      | (none, _) => ⟨.crashed, rv.2, pidfile, [], none⟩
      | (some file2, _) => ⟨.exited 1, rv.2, pidfile, [], some (read_pidfile file2 rv.2)⟩
    else ⟨.exited 1, rv.2, pidfile, [], none⟩

/-- The filesystem and return values after the processes `pids` call
`write_pidfile(file)` one after the other. -/
def claim_all (env : Env) (file : CStr) : List Nat → FS → List Int × FS
  | [], fs => ([], fs)
  | pid :: rest, fs =>
    let r := write_pidfile env pid file fs
    let rs := claim_all env file rest r.2
    (r.1 :: rs.1, rs.2)

/-- Value of a digit string read from the left, continuing from `acc`. -/
def digits_fold (l : CStr) (acc : Nat) : Nat := l.foldl (fun a c => a * 10 + (c.toNat - 48)) acc

/-! ## Signals -/

inductive Signal where
  | SIGHUP : Signal
  | SIGINT : Signal
  | SIGTERM : Signal
  deriving DecidableEq, Repr

/-- What a signal does to the daemon. -/
inductive Action where
  | ign : Action
  | handler : Action
  deriving DecidableEq, Repr

/-- The dispositions `main` installs: `SIGHUP` ignored, `SIGTERM` and `SIGINT`
sent to `sig_handler`. -/
def disposition : Signal → Action
  | .SIGHUP => .ign
  | .SIGTERM => .handler
  | .SIGINT => .handler

/-- Where in the polling cycle the daemon is. -/
inductive Point where
  | schedule_test : Point
  | in_kinit : Point
  | in_aklog : Point
  | in_check_parent : Point
  | sleeping : Point
  deriving DecidableEq, Repr

/-- Whether the daemon is inside a call of the libc `system`, waiting for the
external command. -/
def Point.in_system : Point → Bool
  | .in_kinit => true
  | .in_aklog => true
  | _ => false

/-- The disposition in force at a point of the cycle: the one `main` installed,
except that `system` keeps `SIGINT` ignored in the calling process while it
waits for the command (POSIX: "the system() function shall ignore the SIGINT
and SIGQUIT signals ... while waiting for the command to terminate"). -/
def disposition_at (pt : Point) (sig : Signal) : Action :=
  if pt.in_system = true ∧ sig = .SIGINT then .ign else disposition sig

/-- A daemon inside `child_loop`. -/
structure Daemon where
  /-- The filesystem. -/
  fs : FS
  /-- The static buffer `pidfile` of `pidfilename`. -/
  pidfile : CStr
  /-- The variable `loop_count`. -/
  loop_count : Nat
  /-- Where in the cycle the daemon is. -/
  point : Point
  /-- What the loop has done so far. -/
  done : List Ev
  /-- The exit status, once the process has exited. -/
  exited : Option Nat

/-- The handler `sig_handler(sig)`: `destroy_pidfile(); exit(0);`. -/
def sig_handler (d : Daemon) : Daemon :=
  { d with fs := destroy_pidfile d.pidfile d.fs, exited := some 0 }

/-- Arrival of a signal at a running daemon. -/
def deliver (sig : Signal) (d : Daemon) : Daemon :=
  match disposition_at d.point sig with
  | .ign => d
  | .handler => sig_handler d

/-! ## Sample values -/

/-- The path "/tmp/authd-u/42". -/
def sample_file : CStr := tmp_authd ++ ['u', slash, '4', '2']

/-- An environment with `LOGNAME=u`. -/
def sample_env : Env := ⟨some ['u']⟩

/-- A filesystem holding only "/" and "/tmp". -/
def sample_fs : FS := [([slash], .dir), ([slash, 't', 'm', 'p'], .dir)]

/-- A filesystem in which "/tmp/authd-u" exists and is empty. -/
def sample_fs_dir : FS := (tmp_authd ++ ['u'], .dir) :: sample_fs

/-- A filesystem with the record "/tmp/authd-u/42" of process 100. -/
def sample_fs_rec : FS := (sample_file, .reg ['1', '0', '0', NL]) :: sample_fs_dir

/-- A filesystem with the record and a second file "/tmp/authd-u/43". -/
def sample_fs_two : FS := (tmp_authd ++ ['u', slash, '4', '3'], .reg ['7', NL]) :: sample_fs_rec

/-- The text "bash", NUL, "-l", NUL: a command line as `/proc/<pid>/cmdline` holds it. -/
def sample_cmdline : List Char := ['b', 'a', 's', 'h', NUL, '-', 'l', NUL]

/-- The text "bash", NUL, "-x", NUL: a different command line with the same first argument. -/
def sample_cmdline_other : List Char := ['b', 'a', 's', 'h', NUL, '-', 'x', NUL]

/-- A system in which process `pid` exists exactly when `up` and runs `text`. -/
def sample_sys (up : Bool) (text : List Char) : Sys :=
  ⟨fun _ => up, fun _ => some text, List.replicate 1000 'x', 1⟩

/-- The full text the format of `pidfilename` produces. -/
def full_path (logname name : CStr) : CStr := tmp_authd ++ logname ++ [slash] ++ name

/-- Value of `loop_count` at the top of pass `i` (counting from 0) of a loop
that has not exited. -/
def count_at (i : Nat) : Nat := if i = 0 then 0 else (i - 1) % 60 + 1

/-- Pass `i` of a loop whose liveness check succeeds there. -/
def alive_pass (w : Nat → Sys) (i : Nat) : Pass :=
  ⟨count_at i, (if 60 ≤ count_at i then renewal (w i) else []) ++ [.check true, .sleep],
    if 60 ≤ count_at i then 0 else count_at i⟩

/-- The session of `sample_world` lives through pass 59 and is gone at pass 60. -/
def sample_world (i : Nat) : Sys := sample_sys (decide (i < 60)) sample_cmdline

/-- The command line `main` captures from `sample_cmdline`. -/
def sample_captured : List Char := read_ppid_cmdline sample_cmdline (List.replicate 1000 'y') 1000

/-- A daemon of `sample_env` asleep in its loop, holding the record of `sample_fs_rec`. -/
def sample_daemon : Daemon := ⟨sample_fs_rec, sample_file, 7, .sleeping, [.check true], none⟩

/-- A daemon of `sample_env` waiting for `kinit -R`, holding the record of `sample_fs_rec`. -/
def sample_daemon_renewing : Daemon := ⟨sample_fs_rec, sample_file, 0, .in_kinit, [], none⟩

/-- Pass `i` of a loop whose liveness check fails there. -/
def dead_pass (w : Nat → Sys) (i : Nat) : Pass :=
  ⟨count_at i, (if 60 ≤ count_at i then renewal (w i) else []) ++ [.check false],
    if 60 ≤ count_at i then 0 else count_at i⟩

/-! ## The decimal text of a pid read back -/

theorem digitChar_toNat (d : Nat) (h : d < 10) : (digitChar d).toNat = 48 + d := by
  interval_cases d <;> rfl

theorem isdigit_digitChar (d : Nat) (h : d < 10) : isdigit (digitChar d) = true := by
  simp [isdigit, digitChar_toNat d h]
  omega

theorem fmt_d_fuel_isdigit : ∀ (fuel n : Nat), ∀ c ∈ fmt_d_fuel fuel n, isdigit c = true := by
  intro fuel
  induction fuel with
  | zero => intro n c hc; simp [fmt_d_fuel] at hc
  | succ k ih =>
    intro n c hc
    unfold fmt_d_fuel at hc
    split at hc
    · rename_i h
      simp at hc
      subst hc
      exact isdigit_digitChar n h
    · simp at hc
      rcases hc with hc | hc
      · exact ih _ c hc
      · subst hc
        exact isdigit_digitChar _ (Nat.mod_lt _ (by decide))

theorem fmt_d_fuel_ne_nil (fuel n : Nat) : fmt_d_fuel (fuel + 1) n ≠ [] := by
  unfold fmt_d_fuel
  split <;> simp

theorem digits_value_append (l r : CStr) (h : ∀ c ∈ l, isdigit c = true) (acc : Nat) :
    digits_value (l ++ r) acc = digits_value r (digits_fold l acc) := by
  induction l generalizing acc with
  | nil => rfl
  | cons c cs ih =>
    have hc : isdigit c = true := h c (by simp)
    show digits_value (c :: (cs ++ r)) acc = _
    rw [digits_value, if_pos hc, ih (fun x hx => h x (by simp [hx]))]
    rfl

theorem digits_fold_fmt : ∀ (fuel n : Nat), n < fuel → digits_fold (fmt_d_fuel fuel n) 0 = n := by
  intro fuel
  induction fuel with
  | zero => intro n h; omega
  | succ k ih =>
    intro n h
    unfold fmt_d_fuel
    split
    · rename_i h10
      simp [digits_fold, digitChar_toNat n h10]
    · rename_i h10
      have hk : n / 10 < k := by omega
      have := ih (n / 10) hk
      unfold digits_fold at this ⊢
      rw [List.foldl_append, this]
      simp [digitChar_toNat (n % 10) (Nat.mod_lt _ (by decide))]
      omega

theorem isdigit_not_special (c : Char) (h : isdigit c = true) :
    isspace c = false ∧ c ≠ '-' ∧ c ≠ '+' ∧ c ≠ NL := by
  simp only [isdigit, Bool.and_eq_true, decide_eq_true_eq] at h
  refine ⟨?_, ?_, ?_, ?_⟩
  · simp [isspace]; omega
  · intro hc; subst hc; revert h; decide
  · intro hc; subst hc; revert h; decide
  · intro hc; subst hc; revert h; decide

theorem isdigit_NL : isdigit NL = false := by decide

theorem strtol_fmt_d (n : Nat) (h : n < 2 ^ 31) : atoi (fmt_d n ++ [NL]) = (n : Int) := by
  have hd := fmt_d_fuel_isdigit (n + 1) n
  have hne := fmt_d_fuel_ne_nil n n
  have hval : digits_value (fmt_d n ++ [NL]) 0 = n := by
    unfold fmt_d
    rw [digits_value_append _ _ hd, digits_fold_fmt (n + 1) n (by omega)]
    simp [digits_value, isdigit_NL]
  unfold atoi strtol
  cases hf : fmt_d n with
  | nil => exact absurd hf hne
  | cons c r =>
    have hc : isdigit c = true := hd c (by unfold fmt_d at hf; rw [hf]; simp)
    obtain ⟨h1, h2, h3, _⟩ := isdigit_not_special c hc
    rw [hf] at hval
    have hdw : List.dropWhile isspace (c :: r ++ [NL]) = c :: (r ++ [NL]) := by
      simp [List.dropWhile_cons, h1]
    rw [hdw]
    simp only []
    rw [if_neg h2, if_neg h3]
    have hv : digits_value (c :: (r ++ [NL])) 0 = n := hval
    rw [hv]
    unfold to_int
    norm_num at h ⊢
    omega

theorem getline_fmt_d (n : Nat) : getline (fmt_d n ++ [NL]) = some (fmt_d n ++ [NL]) := by
  have hd := fmt_d_fuel_isdigit (n + 1) n
  have htw : List.takeWhile (fun c => decide (c ≠ NL)) (fmt_d n ++ [NL]) = fmt_d n := by
    rw [List.takeWhile_append_of_pos]
    · simp
    · intro c hc
      have := (isdigit_not_special c (hd c hc)).2.2.2
      simp [this]
  unfold getline
  simp only [htw]
  simp

/-! ## Filesystem lemmas -/

theorem strip_slashes_length (r : List Char) : (strip_slashes r).length ≤ r.length :=
  (List.dropWhile_sublist _).length_le

theorem drop_component_length (r : List Char) : (drop_component r).length ≤ r.length :=
  (List.dropWhile_sublist _).length_le

theorem strip_slashes_head (r : List Char) (a : Char) (t : List Char)
    (h : strip_slashes r = a :: t) : a ≠ slash := by
  induction r with
  | nil => simp [strip_slashes] at h
  | cons b bs ih =>
    unfold strip_slashes at h ih
    rw [List.dropWhile_cons] at h
    by_cases hb : b = slash
    · rw [if_pos (by simpa using hb)] at h
      exact ih h
    · rw [if_neg (by simpa using hb)] at h
      simp only [List.cons.injEq] at h
      rw [← h.1]
      exact hb

theorem drop_component_lt (r : List Char) (h : strip_slashes r ≠ []) :
    (drop_component (strip_slashes r)).length < (strip_slashes r).length := by
  cases hq : strip_slashes r with
  | nil => exact absurd hq h
  | cons a t =>
    have ha := strip_slashes_head r a t hq
    unfold drop_component
    rw [List.dropWhile_cons, if_pos (by simpa using ha)]
    have := drop_component_length t
    unfold drop_component at this
    simp only [List.length_cons]
    omega

theorem dirname_ne_nil (p : CStr) : dirname p ≠ [] := by
  unfold dirname
  simp only []
  split
  · split <;> simp
  · split
    · simp
    · split
      · simp
      · rename_i h
        exact fun h2 => h (List.reverse_eq_nil_iff.mp h2)

theorem dirname_length_lt (p : CStr) (h : dirname p ≠ ['.']) (h2 : dirname p ≠ [slash]) :
    (dirname p).length < p.length := by
  unfold dirname at h h2 ⊢
  simp only [] at h h2 ⊢
  by_cases hr : strip_slashes p.reverse = []
  · rw [if_pos hr] at h h2
    by_cases hp : p = []
    · rw [if_pos hp] at h
      exact absurd rfl h
    · rw [if_neg hp] at h2
      exact absurd rfl h2
  · rw [if_neg hr] at h h2 ⊢
    by_cases hr2 : drop_component (strip_slashes p.reverse) = []
    · rw [if_pos hr2] at h
      exact absurd rfl h
    · rw [if_neg hr2] at h h2 ⊢
      by_cases hr3 : strip_slashes (drop_component (strip_slashes p.reverse)) = []
      · rw [if_pos hr3] at h2
        exact absurd rfl h2
      · rw [if_neg hr3, List.length_reverse]
        have l1 := strip_slashes_length (drop_component (strip_slashes p.reverse))
        have l2 := drop_component_lt p.reverse hr
        have l3 := strip_slashes_length p.reverse
        rw [List.length_reverse] at l3
        omega

theorem dirname_fixed (p : CStr) (h : dirname p = p) : p = ['.'] ∨ p = [slash] := by
  by_cases h1 : dirname p = ['.']
  · left; rw [← h]; exact h1
  · by_cases h2 : dirname p = [slash]
    · right; rw [← h]; exact h2
    · have := dirname_length_lt p h1 h2
      rw [h] at this
      omega

theorem lookup_cons (q p : CStr) (n : Node) (fs : FS) :
    FS.lookup ((q, n) :: fs) p = if q = p then some n else FS.lookup fs p := rfl

theorem remove_cons (q p : CStr) (n : Node) (fs : FS) :
    FS.remove ((q, n) :: fs) p = if q = p then FS.remove fs p else (q, n) :: FS.remove fs p := rfl

theorem lookup_remove_self (fs : FS) (p : CStr) : (fs.remove p).lookup p = none := by
  induction fs with
  | nil => rfl
  | cons e rest ih =>
    obtain ⟨q, n⟩ := e
    rw [remove_cons]
    by_cases h : q = p
    · rw [if_pos h]; exact ih
    · rw [if_neg h, lookup_cons, if_neg h]; exact ih

theorem lookup_remove_ne (fs : FS) (p q : CStr) (hq : q ≠ p) :
    (fs.remove p).lookup q = fs.lookup q := by
  induction fs with
  | nil => rfl
  | cons e rest ih =>
    obtain ⟨r, n⟩ := e
    rw [remove_cons, lookup_cons]
    by_cases h : r = p
    · have hrq : r ≠ q := by rw [h]; exact fun h2 => hq h2.symm
      rw [if_pos h, if_neg hrq]; exact ih
    · rw [if_neg h, lookup_cons, ih]

theorem remove_of_lookup_none (fs : FS) (p : CStr) (h : fs.lookup p = none) : fs.remove p = fs := by
  induction fs with
  | nil => rfl
  | cons e rest ih =>
    obtain ⟨q, n⟩ := e
    rw [lookup_cons] at h
    by_cases hq : q = p
    · rw [if_pos hq] at h; exact absurd h (by simp)
    · rw [if_neg hq] at h
      rw [remove_cons, if_neg hq, ih h]

theorem mem_of_lookup (fs : FS) (p : CStr) (n : Node) (h : fs.lookup p = some n) : (p, n) ∈ fs := by
  induction fs with
  | nil => simp [FS.lookup] at h
  | cons e rest ih =>
    obtain ⟨q, m⟩ := e
    rw [lookup_cons] at h
    by_cases hq : q = p
    · rw [if_pos hq] at h
      simp only [Option.some.injEq] at h
      rw [hq, h]
      exact List.mem_cons_self _ _
    · rw [if_neg hq] at h
      exact List.mem_cons_of_mem _ (ih h)

theorem lookup_write_fd (p q : CStr) (data : List Char) (fs : FS) :
    (write_fd p data fs).lookup q = (fs.lookup q).map (written p q data) := by
  induction fs with
  | nil => rfl
  | cons e rest ih =>
    obtain ⟨r, n⟩ := e
    show FS.lookup ((r, written p r data n) :: write_fd p data rest) q = _
    rw [lookup_cons, lookup_cons]
    by_cases h : r = q
    · rw [if_pos h, if_pos h, h]; rfl
    · rw [if_neg h, if_neg h]; exact ih

/-! ## The pidfile store -/

theorem write_pidfile_taken (env : Env) (logname : CStr) (henv : env.LOGNAME = some logname)
    (pid : Nat) (file : CStr) (fs : FS) (n m : Node) (hfile : file ≠ [])
    (h1 : fs.lookup file = some n) (h2 : fs.lookup (dirname file) = some m) :
    write_pidfile env pid file fs = ((EEXIST : Int), fs) := by
  unfold write_pidfile
  simp [henv, mkdir, write_pidfile_open, open_excl, dirname_ne_nil, h1, h2, hfile]

theorem write_pidfile_fresh (env : Env) (logname : CStr) (henv : env.LOGNAME = some logname)
    (pid : Nat) (file : CStr) (fs : FS) (hfile : file ≠ [])
    (hfree : fs.lookup file = none) (hdir : dir_ready fs file) :
    (write_pidfile env pid file fs).1 = 0 ∧
      (write_pidfile env pid file fs).2.lookup file = some (.reg (fmt_d pid ++ [NL])) ∧
      (write_pidfile env pid file fs).2.lookup (dirname file) = some .dir := by
  rcases hdir with hd | ⟨hd, hdd⟩
  · have hfd : dirname file ≠ file := by
      intro h; rw [h, hfree] at hd; exact absurd hd (by simp)
    have hfd2 : file ≠ dirname file := fun h => hfd h.symm
    unfold write_pidfile
    simp [henv, mkdir, write_pidfile_open, open_excl, dirname_ne_nil, hfile, hfree, hd, lookup_write_fd, lookup_cons,
      written, hfd, hfd2, EEXIST]
  · have hfd : dirname file ≠ file := by
      intro h; rw [h, h, hfree] at hdd; exact absurd hdd (by simp)
    have hfd2 : file ≠ dirname file := fun h => hfd h.symm
    unfold write_pidfile
    simp [henv, mkdir, write_pidfile_open, open_excl, dirname_ne_nil, hfile, hfree, hd, hdd, lookup_write_fd,
      lookup_cons, written, hfd, hfd2, EEXIST]

theorem read_pidfile_of_record (file : CStr) (fs : FS) (pid : Nat) (hpid : pid < 2 ^ 31)
    (h : fs.lookup file = some (.reg (fmt_d pid ++ [NL]))) : read_pidfile file fs = (pid : Int) := by
  unfold read_pidfile
  rw [h]
  simp only [getline_fmt_d, strtol_fmt_d pid hpid]

theorem claim_all_taken (env : Env) (logname : CStr) (henv : env.LOGNAME = some logname)
    (file : CStr) (fs : FS) (n m : Node) (hfile : file ≠ [])
    (h1 : fs.lookup file = some n) (h2 : fs.lookup (dirname file) = some m) (pids : List Nat) :
    claim_all env file pids fs = (pids.map (fun _ => (EEXIST : Int)), fs) := by
  induction pids with
  | nil => rfl
  | cons pid rest ih =>
    unfold claim_all
    simp only [write_pidfile_taken env logname henv pid file fs n m hfile h1 h2, ih, List.map_cons]

theorem mem_remove (fs : FS) (p q : CStr) (n : Node) (h : (q, n) ∈ fs) (hq : q ≠ p) :
    (q, n) ∈ fs.remove p := by
  induction fs with
  | nil => simp at h
  | cons e rest ih =>
    obtain ⟨r, m⟩ := e
    rw [remove_cons]
    rcases List.mem_cons.mp h with h1 | h1
    · simp only [Prod.mk.injEq] at h1
      rw [← h1.1, ← h1.2, if_neg hq]
      exact List.mem_cons_self _ _
    · by_cases hr : r = p
      · rw [if_pos hr]; exact ih h1
      · rw [if_neg hr]; exact List.mem_cons_of_mem _ (ih h1)

theorem has_child_of_mem (fs : FS) (d q : CStr) (n : Node) (h : (q, n) ∈ fs) (hq : q ≠ d)
    (hd : dirname q = d) : fs.has_child d = true := by
  induction fs with
  | nil => simp at h
  | cons e rest ih =>
    obtain ⟨r, m⟩ := e
    show (if r ≠ d ∧ dirname r = d then true else FS.has_child rest d) = true
    rcases List.mem_cons.mp h with h1 | h1
    · simp only [Prod.mk.injEq] at h1
      rw [← h1.1, if_pos ⟨hq, hd⟩]
    · by_cases hr : r ≠ d ∧ dirname r = d
      · rw [if_pos hr]
      · rw [if_neg hr]; exact ih h1

/-- The two ways `destroy_pidfile` can go: `rmdir` fails and only the `unlink`
counts, or `rmdir` removes the empty directory. -/
theorem destroy_pidfile_cases (pidfile : CStr) (fs : FS) :
    let fs1 := ignore_errno (unlink pidfile fs) fs
    (destroy_pidfile pidfile fs = fs1 ∧ ∃ e, rmdir (dirname pidfile) fs1 = .error e) ∨
    (destroy_pidfile pidfile fs = fs1.remove (dirname pidfile) ∧
      dirname pidfile ≠ ['.'] ∧ dirname pidfile ≠ [slash] ∧
      fs1.lookup (dirname pidfile) = some .dir ∧ fs1.has_child (dirname pidfile) = false) := by
  intro fs1
  show (ignore_errno (rmdir (dirname pidfile) fs1) fs1 = fs1 ∧ _) ∨
    (ignore_errno (rmdir (dirname pidfile) fs1) fs1 = fs1.remove (dirname pidfile) ∧ _)
  unfold rmdir
  by_cases h1 : dirname pidfile = ['.']
  · left; rw [if_pos h1]; exact ⟨rfl, _, rfl⟩
  · rw [if_neg h1]
    by_cases h2 : dirname pidfile = [slash]
    · left; rw [if_pos h2]; exact ⟨rfl, _, rfl⟩
    · rw [if_neg h2]
      cases hl : fs1.lookup (dirname pidfile) with
      | none => left; exact ⟨rfl, _, rfl⟩
      | some n =>
        cases n with
        | reg data => left; exact ⟨rfl, _, rfl⟩
        | dir =>
          cases hc : fs1.has_child (dirname pidfile) with
          | true => left; exact ⟨rfl, _, rfl⟩
          | false =>
            right
            exact ⟨rfl, h1, h2, rfl, rfl⟩

theorem rmdir_empty_dir (d : CStr) (fs : FS) (h1 : d ≠ ['.']) (h2 : d ≠ [slash])
    (hd : fs.lookup d = some .dir) (hc : fs.has_child d = false) :
    rmdir d fs = .ok (fs.remove d) := by
  unfold rmdir
  rw [if_neg h1, if_neg h2, hd]
  simp only [hc, Bool.false_eq_true, if_false]

theorem unlink_lookup (pidfile : CStr) (fs : FS) :
    (∃ data, fs.lookup pidfile = some (.reg data) ∧
        ignore_errno (unlink pidfile fs) fs = fs.remove pidfile) ∨
      ((∀ data, fs.lookup pidfile ≠ some (.reg data)) ∧ ignore_errno (unlink pidfile fs) fs = fs) := by
  unfold unlink
  cases hl : fs.lookup pidfile with
  | none => right; exact ⟨fun _ h => by simp at h, rfl⟩
  | some n =>
    cases n with
    | dir => right; exact ⟨fun _ h => by simp at h, rfl⟩
    | reg data => left; exact ⟨data, rfl, rfl⟩

theorem unlink_of_not_reg (pidfile : CStr) (fs : FS) (h : ∀ data, fs.lookup pidfile ≠ some (.reg data)) :
    ignore_errno (unlink pidfile fs) fs = fs := by
  rcases unlink_lookup pidfile fs with ⟨data, h1, _⟩ | ⟨_, h2⟩
  · exact absurd h1 (h data)
  · exact h2

theorem lookup_remove_not_reg (fs : FS) (p q : CStr)
    (h : ∀ data, fs.lookup q ≠ some (.reg data)) : ∀ data, (fs.remove p).lookup q ≠ some (.reg data) := by
  intro data
  by_cases hq : q = p
  · rw [hq, lookup_remove_self]; simp
  · rw [lookup_remove_ne fs p q hq]; exact h data

theorem unlinked_not_reg (pidfile : CStr) (fs : FS) :
    ∀ data, (ignore_errno (unlink pidfile fs) fs).lookup pidfile ≠ some (.reg data) := by
  rcases unlink_lookup pidfile fs with ⟨_, _, h2⟩ | ⟨h1, h2⟩
  · rw [h2, lookup_remove_self]; simp
  · rw [h2]; exact h1

theorem rmdir_of_lookup_none (d : CStr) (fs : FS) (h : fs.lookup d = none) :
    ignore_errno (rmdir d fs) fs = fs := by
  unfold rmdir
  by_cases h1 : d = ['.']
  · rw [if_pos h1]; rfl
  · rw [if_neg h1]
    by_cases h2 : d = [slash]
    · rw [if_pos h2]; rfl
    · rw [if_neg h2, h]; rfl

theorem destroy_pidfile_idem (pidfile : CStr) (fs : FS) :
    destroy_pidfile pidfile (destroy_pidfile pidfile fs) = destroy_pidfile pidfile fs := by
  have hnr := unlinked_not_reg pidfile fs
  rcases destroy_pidfile_cases pidfile fs with ⟨h, e, hr⟩ | ⟨h, _, _, _, _⟩
  · rw [h]
    show ignore_errno (rmdir (dirname pidfile) (ignore_errno (unlink pidfile _) _)) _ = _
    rw [unlink_of_not_reg _ _ hnr, hr]; rfl
  · rw [h]
    show ignore_errno (rmdir (dirname pidfile) (ignore_errno (unlink pidfile _) _)) _ = _
    rw [unlink_of_not_reg _ _ (lookup_remove_not_reg _ _ _ hnr),
      rmdir_of_lookup_none _ _ (lookup_remove_self _ _)]

theorem destroy_pidfile_no_record (pidfile : CStr) (fs : FS) (data : List Char)
    (h : fs.lookup pidfile = some (.reg data)) : (destroy_pidfile pidfile fs).lookup pidfile = none := by
  have hu : ignore_errno (unlink pidfile fs) fs = fs.remove pidfile := by
    unfold unlink; rw [h]; rfl
  have hl : (fs.remove pidfile).lookup pidfile = none := lookup_remove_self _ _
  rcases destroy_pidfile_cases pidfile fs with ⟨h1, _⟩ | ⟨h1, _⟩
  · rw [h1, hu]; exact hl
  · rw [h1, hu]
    by_cases hq : pidfile = dirname pidfile
    · rw [← hq]; exact lookup_remove_self _ _
    · rw [lookup_remove_ne _ _ _ hq]; exact hl

theorem wf_lookup_dir (fs : FS) (hwf : fs.wf) (p : CStr) (n : Node) (h : fs.lookup p = some n) :
    p ≠ [] ∧ fs.lookup (dirname p) = some .dir :=
  hwf (p, n) (mem_of_lookup fs p n h)

/-- C1: starting from a filesystem with no entry at `file` (whose directory
exists or can be made, with `LOGNAME` set), when processes `pid :: later` call
`write_pidfile(file)` one after the other with no release in between, the first
call returns 0, every later call returns `EEXIST` and leaves the filesystem as
the first call left it, and `read_pidfile(file)` then returns the first pid.
This holds for all pids, distinct or not. -/
theorem write_pidfile_first_claim_wins (env : Env) (logname : CStr)
    (henv : env.LOGNAME = some logname) (fs : FS) (file : CStr) (pid : Nat) (later : List Nat)
    (hfile : file ≠ []) (hfree : fs.lookup file = none) (hdir : dir_ready fs file)
    (hpid : pid < 2 ^ 31) :
    claim_all env file (pid :: later) fs =
        ((0 : Int) :: later.map (fun _ => (EEXIST : Int)), (write_pidfile env pid file fs).2) ∧
      read_pidfile file (claim_all env file (pid :: later) fs).2 = (pid : Int) := by
  obtain ⟨h0, hrec, hd⟩ := write_pidfile_fresh env logname henv pid file fs hfile hfree hdir
  have hall : claim_all env file (pid :: later) fs =
      ((0 : Int) :: later.map (fun _ => (EEXIST : Int)), (write_pidfile env pid file fs).2) := by
    show ((write_pidfile env pid file fs).1 ::
        (claim_all env file later (write_pidfile env pid file fs).2).1,
      (claim_all env file later (write_pidfile env pid file fs).2).2) = _
    rw [claim_all_taken env logname henv file _ _ _ hfile hrec hd later, h0]
  refine ⟨hall, ?_⟩
  rw [hall]
  exact read_pidfile_of_record file _ pid hpid hrec

theorem write_pidfile_first_claim_wins_witness :
    claim_all sample_env sample_file [100, 200, 300] sample_fs =
        ([0, (EEXIST : Int), (EEXIST : Int)], (write_pidfile sample_env 100 sample_file sample_fs).2) ∧
      read_pidfile sample_file (claim_all sample_env sample_file [100, 200, 300] sample_fs).2 = 100 :=
  write_pidfile_first_claim_wins sample_env ['u'] rfl sample_fs sample_file 100 [200, 300]
    (by decide) (by decide) (Or.inr ⟨by decide, by decide⟩) (by decide)

/-- C8: in every well-formed filesystem with a record at `file` (and `LOGNAME`
set), `destroy_pidfile()` on that path followed by `write_pidfile(file)` by
process `pid` returns 0, and `read_pidfile(file)` then returns `pid`; this
covers both the case where the release removed the directory and the case
where it did not. -/
theorem release_then_claim (env : Env) (logname : CStr) (henv : env.LOGNAME = some logname)
    (fs : FS) (hwf : fs.wf) (file : CStr) (data : List Char) (pid : Nat) (hpid : pid < 2 ^ 31)
    (hrec : fs.lookup file = some (.reg data)) :
    (write_pidfile env pid file (destroy_pidfile file fs)).1 = 0 ∧
      read_pidfile file (write_pidfile env pid file (destroy_pidfile file fs)).2 = (pid : Int) := by
  obtain ⟨hfile, hd⟩ := wf_lookup_dir fs hwf file _ hrec
  obtain ⟨_, hdd⟩ := wf_lookup_dir fs hwf (dirname file) _ hd
  have hne : dirname file ≠ file := by
    intro h; rw [h, hrec] at hd; exact absurd hd (by simp)
  have hne2 : dirname (dirname file) ≠ file := by
    intro h; rw [h, hrec] at hdd; exact absurd hdd (by simp)
  have hu : ignore_errno (unlink file fs) fs = fs.remove file := by
    unfold unlink; rw [hrec]; rfl
  have hfree := destroy_pidfile_no_record file fs data hrec
  have hready : dir_ready (destroy_pidfile file fs) file := by
    rcases destroy_pidfile_cases file fs with ⟨h1, _⟩ | ⟨h1, hdot, hroot, _, _⟩
    · left; rw [h1, hu, lookup_remove_ne _ _ _ hne]; exact hd
    · right
      have hfix : dirname (dirname file) ≠ dirname file := by
        intro h
        rcases dirname_fixed _ h with h2 | h2
        · exact hdot h2
        · exact hroot h2
      rw [h1, hu]
      refine ⟨lookup_remove_self _ _, ?_⟩
      rw [lookup_remove_ne _ _ _ hfix, lookup_remove_ne _ _ _ hne2]
      exact hdd
  obtain ⟨h0, hnew, _⟩ := write_pidfile_fresh env logname henv pid file _ hfile hfree hready
  exact ⟨h0, read_pidfile_of_record file _ pid hpid hnew⟩

theorem sample_fs_rec_wf : sample_fs_rec.wf := by
  intro e he
  simp only [sample_fs_rec, sample_fs_dir, sample_fs, List.mem_cons, List.mem_singleton,
    List.not_mem_nil, or_false] at he
  rcases he with h | h | h | h <;> subst h <;> decide

theorem release_then_claim_witness :
    (write_pidfile sample_env 200 sample_file (destroy_pidfile sample_file sample_fs_rec)).1 = 0 ∧
      read_pidfile sample_file
        (write_pidfile sample_env 200 sample_file (destroy_pidfile sample_file sample_fs_rec)).2 = 200 :=
  release_then_claim sample_env ['u'] rfl sample_fs_rec sample_fs_rec_wf sample_file
    ['1', '0', '0', NL] 200 (by decide) (by decide)

/-- C9 as stated fails: with no record at the path and an empty directory,
`destroy_pidfile()` removes the directory, so the filesystem changes. -/
theorem destroy_pidfile_not_noop :
    sample_fs_dir.lookup sample_file = none ∧
      destroy_pidfile sample_file sample_fs_dir ≠ sample_fs_dir ∧
      destroy_pidfile sample_file sample_fs_dir = sample_fs := by
  decide

/-- C9, amended: `destroy_pidfile()` is idempotent (twice leaves the same
filesystem as once) and has no error result.  With no record at the path it
removes no file: it changes nothing at all unless the directory exists and is
empty, it never changes a path other than the directory, and an empty
directory (other than "." and "/") is removed.  When the directory holds an
entry other than the record, the directory and that entry stay in place. -/
theorem destroy_pidfile_idempotent (pidfile : CStr) (fs : FS) :
    destroy_pidfile pidfile (destroy_pidfile pidfile fs) = destroy_pidfile pidfile fs ∧
      (fs.lookup pidfile = none →
        (¬ (fs.lookup (dirname pidfile) = some .dir ∧ fs.has_child (dirname pidfile) = false) →
            destroy_pidfile pidfile fs = fs) ∧
          (∀ q, q ≠ dirname pidfile → (destroy_pidfile pidfile fs).lookup q = fs.lookup q) ∧
          (fs.lookup (dirname pidfile) = some .dir → fs.has_child (dirname pidfile) = false →
            dirname pidfile ≠ ['.'] → dirname pidfile ≠ [slash] →
            destroy_pidfile pidfile fs = fs.remove (dirname pidfile))) ∧
      (fs.lookup (dirname pidfile) = some .dir →
        ∀ q n, (q, n) ∈ fs → q ≠ pidfile → q ≠ dirname pidfile → dirname q = dirname pidfile →
          (destroy_pidfile pidfile fs).lookup (dirname pidfile) = some .dir ∧
            (destroy_pidfile pidfile fs).lookup q = fs.lookup q) := by
  refine ⟨destroy_pidfile_idem pidfile fs, ?_, ?_⟩
  · intro hnone
    have hu : ignore_errno (unlink pidfile fs) fs = fs :=
      unlink_of_not_reg _ _ (fun d h => by rw [hnone] at h; simp at h)
    have hrm : ∀ hd : fs.lookup (dirname pidfile) = some .dir, fs.has_child (dirname pidfile) = false →
        dirname pidfile ≠ ['.'] → dirname pidfile ≠ [slash] →
        destroy_pidfile pidfile fs = fs.remove (dirname pidfile) := by
      intro hd hc h1 h2
      show ignore_errno (rmdir (dirname pidfile) (ignore_errno (unlink pidfile fs) fs))
        (ignore_errno (unlink pidfile fs) fs) = _
      rw [hu, rmdir_empty_dir _ _ h1 h2 hd hc]
      rfl
    rcases destroy_pidfile_cases pidfile fs with ⟨h1, _⟩ | ⟨h1, _, _, h2, h3⟩
    · rw [hu] at h1
      exact ⟨fun _ => h1, fun _ _ => by rw [h1], hrm⟩
    · rw [hu] at h1 h2 h3
      refine ⟨fun h => absurd ⟨h2, h3⟩ h, fun q hq => ?_, hrm⟩
      rw [h1]
      exact lookup_remove_ne _ _ _ hq
  · intro hdir q n hmem hq hqd hdq
    have hdp : dirname pidfile = pidfile → ∀ data, fs.lookup pidfile ≠ some (.reg data) := by
      intro h data h2; rw [h, h2] at hdir; simp at hdir
    have key : ∃ fs1, ignore_errno (unlink pidfile fs) fs = fs1 ∧ (q, n) ∈ fs1 ∧
        fs1.lookup (dirname pidfile) = some .dir ∧ fs1.lookup q = fs.lookup q := by
      rcases unlink_lookup pidfile fs with ⟨data, h1, h2⟩ | ⟨_, h2⟩
      · have hne : dirname pidfile ≠ pidfile := fun h => hdp h data h1
        exact ⟨_, h2, mem_remove _ _ _ _ hmem hq, by rw [lookup_remove_ne _ _ _ hne]; exact hdir,
          lookup_remove_ne _ _ _ hq⟩
      · exact ⟨_, h2, hmem, hdir, rfl⟩
    obtain ⟨fs1, hfs1, hm1, hd1, hq1⟩ := key
    have hchild : fs1.has_child (dirname pidfile) = true := has_child_of_mem fs1 _ q n hm1 hqd hdq
    rcases destroy_pidfile_cases pidfile fs with ⟨h1, _⟩ | ⟨_, _, _, _, h3⟩
    · rw [h1, hfs1]; exact ⟨hd1, hq1⟩
    · rw [hfs1, hchild] at h3; exact absurd h3 (by simp)

theorem destroy_pidfile_idempotent_witness :
    destroy_pidfile sample_file (destroy_pidfile sample_file sample_fs_two) =
        destroy_pidfile sample_file sample_fs_two ∧
      destroy_pidfile sample_file sample_fs = sample_fs ∧
      destroy_pidfile sample_file sample_fs_dir = sample_fs_dir.remove (dirname sample_file) ∧
      ((destroy_pidfile sample_file sample_fs_two).lookup (dirname sample_file) = some .dir ∧
        (destroy_pidfile sample_file sample_fs_two).lookup (tmp_authd ++ ['u', slash, '4', '3']) =
          sample_fs_two.lookup (tmp_authd ++ ['u', slash, '4', '3'])) :=
  ⟨(destroy_pidfile_idempotent sample_file sample_fs_two).1,
    ((destroy_pidfile_idempotent sample_file sample_fs).2.1 (by decide)).1 (by decide),
    ((destroy_pidfile_idempotent sample_file sample_fs_dir).2.1 (by decide)).2.2 (by decide)
      (by decide) (by decide) (by decide),
    (destroy_pidfile_idempotent sample_file sample_fs_two).2.2 (by decide)
      (tmp_authd ++ ['u', slash, '4', '3']) (.reg ['7', NL]) (by decide) (by decide) (by decide)
      (by decide)⟩

/-- C10 as stated fails: with a `LOGNAME` of 4096 bytes the result is cut at
`PATH_MAX - 1` bytes and is not the whole path. -/
theorem pidfilename_truncates :
    (pidfilename ⟨some (List.replicate 4096 'a')⟩ (some ['1']) []).1 ≠
      some (tmp_authd ++ List.replicate 4096 'a' ++ [slash] ++ ['1']) := by
  intro h
  have h1 : snprintf PATH_MAX (tmp_authd ++ List.replicate 4096 'a' ++ [slash] ++ ['1']) =
      tmp_authd ++ List.replicate 4096 'a' ++ [slash] ++ ['1'] := Option.some.inj h
  have h2 := congrArg List.length h1
  unfold snprintf PATH_MAX at h2
  rw [List.length_take] at h2
  simp only [List.length_append, List.length_replicate, List.length_cons, List.length_nil] at h2
  omega

/-- C10, amended: with `LOGNAME` set to `logname`, `pidfilename(name)` returns
(and stores) the first `PATH_MAX - 1` bytes of "/tmp/authd-<logname>/<name>",
which is the whole path when that is shorter than `PATH_MAX`; the result
depends on `logname` and `name` only.  With `LOGNAME` unset it returns a null
pointer and leaves the stored path alone.  With a null name it returns the
stored path, so after a successful call a call with a null name returns that
call's path. -/
theorem pidfilename_path (env : Env) (name : CStr) (pidfile : CStr) :
    (∀ logname, env.LOGNAME = some logname →
      pidfilename env (some name) pidfile =
          (some ((full_path logname name).take (PATH_MAX - 1)),
            (full_path logname name).take (PATH_MAX - 1)) ∧
        ((full_path logname name).length < PATH_MAX →
          pidfilename env (some name) pidfile = (some (full_path logname name), full_path logname name)) ∧
        ∀ env2, (pidfilename env2 none (pidfilename env (some name) pidfile).2).1 =
          (pidfilename env (some name) pidfile).1) ∧
      (env.LOGNAME = none → pidfilename env (some name) pidfile = (none, pidfile)) ∧
      pidfilename env none pidfile = (some pidfile, pidfile) := by
  refine ⟨?_, ?_, rfl⟩
  · intro logname h
    have h1 : pidfilename env (some name) pidfile =
        (some ((full_path logname name).take (PATH_MAX - 1)),
          (full_path logname name).take (PATH_MAX - 1)) := by
      simp [pidfilename, h, snprintf, full_path]
    refine ⟨h1, ?_, ?_⟩
    · intro hlen
      rw [h1, List.take_of_length_le (by omega)]
    · intro env2
      rw [h1]
      rfl
  · intro h
    simp [pidfilename, h]

theorem pidfilename_path_witness :
    pidfilename sample_env (some ['4', '2']) [] = (some sample_file, sample_file) ∧
      (pidfilename ⟨none⟩ none (pidfilename sample_env (some ['4', '2']) []).2).1 = some sample_file ∧
      pidfilename ⟨none⟩ (some ['4', '2']) sample_file = (none, sample_file) :=
  ⟨((pidfilename_path sample_env ['4', '2'] []).1 ['u'] rfl).2.1 (by decide),
    ((pidfilename_path sample_env ['4', '2'] []).1 ['u'] rfl).2.2 ⟨none⟩,
    (pidfilename_path ⟨none⟩ ['4', '2'] sample_file).2.1 rfl⟩

/-- C2: `check_parent` does not compare the whole texts.  The session process
exists, the captured text is "bash\0-l\0" and the current text of the pid is
"bash\0-x\0"; the two differ at a byte after the first NUL, and `check_parent`
returns 1. -/
theorem check_parent_stops_at_nul :
    sample_cmdline ≠ sample_cmdline_other ∧
      check_parent 42 (read_ppid_cmdline sample_cmdline (List.replicate 1000 'y') 1000)
        (sample_sys true sample_cmdline_other) = some true := by
  constructor
  · decide
  · rfl

/-! ## The main loop -/

theorem count_at_succ (i : Nat) :
    count_at (i + 1) = (if 60 ≤ count_at i then 0 else count_at i) + 1 := by
  unfold count_at
  by_cases h : i = 0
  · subst h; rfl
  · simp only [h, if_false, Nat.add_sub_cancel, Nat.succ_ne_zero]
    split <;> omega

theorem count_at_due (i : Nat) : 60 ≤ count_at i ↔ (0 < i ∧ i % 60 = 0) := by
  unfold count_at
  by_cases h : i = 0
  · subst h; simp
  · simp only [h, if_false]
    omega

theorem count_at_reset (i : Nat) : (if 60 ≤ count_at i then 0 else count_at i) = i % 60 := by
  unfold count_at
  by_cases h : i = 0
  · subst h; rfl
  · simp only [h, if_false]
    split <;> omega

theorem due_iff (loop_count : Nat) :
    decide (loop_count * LOOP_INTERVAL ≥ KINIT_INTERVAL) = decide (60 ≤ loop_count) := by
  unfold LOOP_INTERVAL KINIT_INTERVAL
  by_cases h : 60 ≤ loop_count
  · simp only [h, decide_True, decide_eq_true_eq]; omega
  · simp only [h, decide_False, decide_eq_false_iff_not]; omega

theorem child_loop_from_true (w : Nat → Sys) (gp_pid : Nat) (cmdline : List Char)
    (fuel i : Nat) (h : check_parent gp_pid cmdline (w i) = some true) :
    child_loop_from w gp_pid cmdline (fuel + 1) i (count_at i) =
      (alive_pass w i :: (child_loop_from w gp_pid cmdline fuel (i + 1) (count_at (i + 1))).1,
        (child_loop_from w gp_pid cmdline fuel (i + 1) (count_at (i + 1))).2) := by
  rw [child_loop_from]
  simp only [h, due_iff, count_at_succ, alive_pass, decide_eq_true_eq]

theorem child_loop_from_false (w : Nat → Sys) (gp_pid : Nat) (cmdline : List Char)
    (fuel i : Nat) (h : check_parent gp_pid cmdline (w i) = some false) :
    child_loop_from w gp_pid cmdline (fuel + 1) i (count_at i) = ([dead_pass w i], .returned) := by
  rw [child_loop_from]
  simp only [h, due_iff, dead_pass, decide_eq_true_eq]

theorem child_loop_from_alive (w : Nat → Sys) (gp_pid : Nat) (cmdline : List Char) :
    ∀ (fuel i : Nat), (∀ j, j < fuel → check_parent gp_pid cmdline (w (i + j)) = some true) →
      child_loop_from w gp_pid cmdline fuel i (count_at i) =
        ((List.range' i fuel).map (alive_pass w), .running) := by
  intro fuel
  induction fuel with
  | zero => intro i _; rfl
  | succ n ih =>
    intro i h
    have h0 := h 0 (by omega)
    rw [Nat.add_zero] at h0
    rw [child_loop_from_true w gp_pid cmdline n i h0,
      ih (i + 1) (fun j hj => by have := h (j + 1) (by omega); rwa [Nat.add_assoc, Nat.add_comm 1 j])]
    rfl

theorem child_loop_from_dies (w : Nat → Sys) (gp_pid : Nat) (cmdline : List Char) :
    ∀ (k i fuel : Nat), k < fuel →
      (∀ j, j < k → check_parent gp_pid cmdline (w (i + j)) = some true) →
      check_parent gp_pid cmdline (w (i + k)) = some false →
      child_loop_from w gp_pid cmdline fuel i (count_at i) =
        ((List.range' i k).map (alive_pass w) ++ [dead_pass w (i + k)], .returned) := by
  intro k
  induction k with
  | zero =>
    intro i fuel hf _ hd
    obtain ⟨n, rfl⟩ : ∃ n, fuel = n + 1 := ⟨fuel - 1, by omega⟩
    rw [Nat.add_zero] at hd
    rw [child_loop_from_false w gp_pid cmdline n i hd]
    rfl
  | succ m ih =>
    intro i fuel hf ha hd
    obtain ⟨n, rfl⟩ : ∃ n, fuel = n + 1 := ⟨fuel - 1, by omega⟩
    have h0 := ha 0 (by omega)
    rw [Nat.add_zero] at h0
    have hd2 : check_parent gp_pid cmdline (w (i + 1 + m)) = some false := by
      rw [Nat.add_assoc, Nat.add_comm 1 m]; exact hd
    rw [child_loop_from_true w gp_pid cmdline n i h0,
      ih (i + 1) n (by omega)
        (fun j hj => by have := ha (j + 1) (by omega); rwa [Nat.add_assoc, Nat.add_comm 1 j]) hd2]
    simp only [List.range'_succ, List.map_cons, List.cons_append, Nat.add_assoc, Nat.add_comm 1 m]

theorem renewal_renewed (s : Sys) (rest : List Ev) :
    (renewal s ++ rest).any Ev.is_kinit = true := by
  unfold renewal
  split <;> simp [Ev.is_kinit]

theorem alive_pass_renewed (w : Nat → Sys) (i : Nat) :
    (alive_pass w i).renewed = true ↔ (0 < i ∧ i % 60 = 0) := by
  rw [← count_at_due]
  unfold alive_pass Pass.renewed
  by_cases h : 60 ≤ count_at i
  · simp only [h, if_true, renewal_renewed]
  · simp [h, Ev.is_kinit]

theorem dead_pass_renewed (w : Nat → Sys) (i : Nat) :
    (dead_pass w i).renewed = true ↔ (0 < i ∧ i % 60 = 0) := by
  rw [← count_at_due]
  unfold dead_pass Pass.renewed
  by_cases h : 60 ≤ count_at i
  · simp only [h, if_true, renewal_renewed]
  · simp [h, Ev.is_kinit]

/-- C3: with `LOOP_INTERVAL` 60 and `KINIT_INTERVAL` 3600, while the liveness
check keeps succeeding the loop does not exit, and the pass entered after `i`
ticks (a tick is one `loop_count++` with its `sleep`; passes are counted from
0, so pass `i` is the one whose schedule test follows the `i`-th tick) runs
the renewal command exactly when `i` is a positive multiple of 60: first on
the 60th tick, when `loop_count * 60` reaches 3600, not before, then once per
60 ticks.  A pass that renews finds `loop_count` at 60 and resets it to zero. -/
theorem child_loop_renews_every_60_ticks (w : Nat → Sys) (gp_pid : Nat) (cmdline : List Char)
    (n : Nat) (halive : ∀ i, i < n → check_parent gp_pid cmdline (w i) = some true) :
    (child_loop w gp_pid cmdline n).2 = .running ∧
      ∀ i, i < n → ∃ p, (child_loop w gp_pid cmdline n).1[i]? = some p ∧
        (p.renewed = true ↔ (0 < i ∧ i % 60 = 0)) ∧
        p.loop_count_after = i % 60 ∧
        (p.renewed = true → p.loop_count = 60 ∧ p.loop_count_after = 0) := by
  have hrun : child_loop w gp_pid cmdline n = ((List.range' 0 n).map (alive_pass w), .running) :=
    child_loop_from_alive w gp_pid cmdline n 0 (fun j hj => by rw [Nat.zero_add]; exact halive j hj)
  rw [hrun]
  refine ⟨rfl, fun i hi => ⟨alive_pass w i, ?_, alive_pass_renewed w i, count_at_reset i, ?_⟩⟩
  · simp [List.getElem?_map, List.getElem?_range', hi]
  · intro hr
    have hdue := (count_at_due i).mpr ((alive_pass_renewed w i).mp hr)
    have hle : count_at i ≤ 60 := by unfold count_at; split <;> omega
    constructor
    · show count_at i = 60
      omega
    · show (if 60 ≤ count_at i then 0 else count_at i) = 0
      rw [if_pos hdue]

theorem child_loop_renews_every_60_ticks_witness :
    (child_loop (fun _ => sample_sys true sample_cmdline) 42 sample_captured 121).2 = .running ∧
      ∃ p, (child_loop (fun _ => sample_sys true sample_cmdline) 42 sample_captured 121).1[60]? = some p ∧
        (p.renewed = true ↔ (0 < 60 ∧ 60 % 60 = 0)) ∧
        p.loop_count_after = 60 % 60 ∧
        (p.renewed = true → p.loop_count = 60 ∧ p.loop_count_after = 0) :=
  ⟨(child_loop_renews_every_60_ticks (fun _ => sample_sys true sample_cmdline) 42 sample_captured 121
      (fun _ _ => rfl)).1,
    (child_loop_renews_every_60_ticks (fun _ => sample_sys true sample_cmdline) 42 sample_captured 121
      (fun _ _ => rfl)).2 60 (by decide)⟩

theorem sample_world_alive (i : Nat) (h : i < 60) :
    check_parent 42 sample_captured (sample_world i) = some true := by
  have : sample_world i = sample_sys true sample_cmdline := by
    unfold sample_world; rw [decide_eq_true h]
  rw [this]
  rfl

theorem sample_world_dead : check_parent 42 sample_captured (sample_world 60) = some false := rfl

/-- C5 as stated fails: the session is gone at the pass entered after 60
ticks, a renewal is due there, and the loop runs `kinit -R` in that pass
before the liveness check fails and the loop exits. -/
theorem child_loop_renews_in_dying_pass :
    check_parent 42 sample_captured (sample_world 60) = some false ∧
      (child_loop sample_world 42 sample_captured 100).2 = .returned ∧
      (child_loop sample_world 42 sample_captured 100).1[60]? =
        some ⟨60, [.kinit 1, .check false], 0⟩ := by
  have h := child_loop_from_dies sample_world 42 sample_captured 60 0 100 (by decide)
    (fun j hj => by rw [Nat.zero_add]; exact sample_world_alive j hj) sample_world_dead
  have h2 : child_loop sample_world 42 sample_captured 100 =
      ((List.range' 0 60).map (alive_pass sample_world) ++ [dead_pass sample_world (0 + 60)],
        .returned) := h
  rw [h2]
  refine ⟨rfl, rfl, ?_⟩
  rw [List.getElem?_append_right (by simp)]
  simp only [List.length_map, List.length_range', Nat.sub_self]
  rfl

/-- C5, amended: in every pass the renewal schedule test comes before the
liveness check.  When the liveness check first fails in the pass entered after
`k` ticks, the loop exits in that pass, with no sleep; that pass runs the
renewal commands first when a renewal is due in it (`k` a positive multiple of
60) and runs no renewal command otherwise. -/
theorem child_loop_schedule_before_liveness (w : Nat → Sys) (gp_pid : Nat) (cmdline : List Char)
    (k fuel : Nat) (hfuel : k < fuel)
    (halive : ∀ j, j < k → check_parent gp_pid cmdline (w j) = some true)
    (hdead : check_parent gp_pid cmdline (w k) = some false) :
    (child_loop w gp_pid cmdline fuel).2 = .returned ∧
      (child_loop w gp_pid cmdline fuel).1.length = k + 1 ∧
      ∃ p, (child_loop w gp_pid cmdline fuel).1[k]? = some p ∧
        p.events = (if 0 < k ∧ k % 60 = 0 then renewal (w k) else []) ++ [.check false] := by
  have h := child_loop_from_dies w gp_pid cmdline k 0 fuel hfuel
    (fun j hj => by rw [Nat.zero_add]; exact halive j hj) (by rw [Nat.zero_add]; exact hdead)
  have h2 : child_loop w gp_pid cmdline fuel =
      ((List.range' 0 k).map (alive_pass w) ++ [dead_pass w (0 + k)], .returned) := h
  rw [h2]
  refine ⟨rfl, by simp, dead_pass w k, ?_, ?_⟩
  · rw [List.getElem?_append_right (by simp)]
    simp
  · show (if 60 ≤ count_at k then renewal (w k) else []) ++ [Ev.check false] = _
    by_cases hd : 60 ≤ count_at k
    · rw [if_pos hd, if_pos ((count_at_due k).mp hd)]
    · rw [if_neg hd, if_neg (fun h3 => hd ((count_at_due k).mpr h3))]

theorem child_loop_schedule_before_liveness_witness :
    (child_loop sample_world 42 sample_captured 100).2 = .returned ∧
      (child_loop sample_world 42 sample_captured 100).1.length = 60 + 1 ∧
      ∃ p, (child_loop sample_world 42 sample_captured 100).1[60]? = some p ∧
        p.events = (if 0 < 60 ∧ 60 % 60 = 0 then renewal (sample_world 60) else []) ++ [.check false] :=
  child_loop_schedule_before_liveness sample_world 42 sample_captured 60 100 (by decide)
    sample_world_alive sample_world_dead

theorem child_loop_from_returned_ne_nil (w : Nat → Sys) (gp_pid : Nat) (cmdline : List Char)
    (fuel i loop_count : Nat)
    (h : (child_loop_from w gp_pid cmdline fuel i loop_count).2 = .returned) :
    (child_loop_from w gp_pid cmdline fuel i loop_count).1 ≠ [] := by
  cases fuel with
  | zero => exact absurd h (by simp [child_loop_from])
  | succ n =>
    rw [child_loop_from]
    cases check_parent gp_pid cmdline (w i) with
    | none => simp
    | some b => cases b <;> simp

theorem child_loop_from_exit_iff (w : Nat → Sys) (gp_pid : Nat) (cmdline : List Char) :
    ∀ (fuel i loop_count j : Nat), j < fuel →
      (((child_loop_from w gp_pid cmdline fuel i loop_count).2 = .returned ∧
          (child_loop_from w gp_pid cmdline fuel i loop_count).1.length = j + 1) ↔
        ((∀ t, t < j → check_parent gp_pid cmdline (w (i + t)) = some true) ∧
          check_parent gp_pid cmdline (w (i + j)) = some false)) := by
  intro fuel
  induction fuel with
  | zero => intro i lc j hj; omega
  | succ n ih =>
    intro i lc j hj
    have hne := child_loop_from_returned_ne_nil w gp_pid cmdline n (i + 1)
      ((if decide (lc * LOOP_INTERVAL ≥ KINIT_INTERVAL) = true then 0 else lc) + 1)
    rw [child_loop_from]
    cases hc : check_parent gp_pid cmdline (w i) with
    | none =>
      simp only [reduceCtorEq, false_and, false_iff, not_and]
      intro ha hd
      cases j with
      | zero => rw [Nat.add_zero, hc] at hd; simp at hd
      | succ m => have := ha 0 (by omega); rw [Nat.add_zero, hc] at this; simp at this
    | some b =>
      cases b with
      | false =>
        simp only [List.length_singleton, true_and]
        constructor
        · intro h
          have hj0 : j = 0 := by omega
          subst hj0
          exact ⟨fun t ht => by omega, by rw [Nat.add_zero]; exact hc⟩
        · intro ⟨ha, _⟩
          cases j with
          | zero => rfl
          | succ m => have := ha 0 (by omega); rw [Nat.add_zero, hc] at this; simp at this
      | true =>
        simp only [List.length_cons]
        cases j with
        | zero =>
          constructor
          · intro ⟨h1, h2⟩
            exact absurd (List.length_eq_zero.mp (by omega)) (hne h1)
          · intro ⟨_, hd⟩
            rw [Nat.add_zero, hc] at hd
            simp at hd
        | succ m =>
          have := ih (i + 1) ((if decide (lc * LOOP_INTERVAL ≥ KINIT_INTERVAL) = true then 0 else lc) + 1)
            m (by omega)
          rw [Nat.add_right_cancel_iff, this]
          constructor
          · intro ⟨ha, hd⟩
            refine ⟨fun t ht => ?_, by rw [← Nat.add_assoc, Nat.add_right_comm]; exact hd⟩
            cases t with
            | zero => rw [Nat.add_zero]; exact hc
            | succ u =>
              have := ha u (by omega)
              rwa [Nat.add_assoc, Nat.add_comm 1 u] at this
          · intro ⟨ha, hd⟩
            refine ⟨fun t ht => ?_, by rw [Nat.add_assoc, Nat.add_comm 1 m]; exact hd⟩
            have := ha (t + 1) (by omega)
            rwa [Nat.add_assoc, Nat.add_comm 1 t]

theorem check_parent_no_process (gp_pid : Nat) (cmdline : List Char) (s : Sys)
    (h : s.kill0 gp_pid = false) : check_parent gp_pid cmdline s = some false := by
  unfold check_parent
  rw [if_pos h]

theorem snprintf_path_ne_nil (logname name : CStr) :
    snprintf PATH_MAX (tmp_authd ++ logname ++ [slash] ++ name) ≠ [] := by
  intro h
  have := congrArg List.length h
  unfold snprintf PATH_MAX at this
  rw [List.length_take] at this
  simp only [List.length_append, tmp_authd, List.length_cons, List.length_nil] at this
  omega

/-- C4: when the zero-signal probe of the session pid fails in the pass
entered after `k` ticks (the session having been alive before), `check_parent`
returns 0 there for every command line and `child_loop` returns in that pass.
The child branch of `main` first claims its pidfile: `write_pidfile` returns 0
and writes the record of `pid`.  As long as the loop has run no further than
the passes before the probe fails (`n ≤ k` passes), the daemon is still running
and the record is in place.  Once the loop reaches pass `k`, the daemon has run
exactly the passes of `child_loop`, has then run `destroy_pidfile` on the
filesystem the claim left, and has ended with status 0 with no entry at the
pidfile path. -/
theorem main_child_session_gone (env : Env) (logname : CStr) (henv : env.LOGNAME = some logname)
    (w : Nat → Sys) (fuel k pid ppid : Nat) (cmdline : List Char) (fs : FS)
    (hfree : fs.lookup (full_path logname (fmt_d ppid) |>.take (PATH_MAX - 1)) = none)
    (hdir : dir_ready fs (full_path logname (fmt_d ppid) |>.take (PATH_MAX - 1)))
    (hfuel : k < fuel)
    (halive : ∀ j, j < k → check_parent ppid cmdline (w j) = some true)
    (hgone : (w k).kill0 ppid = false) :
    (∀ c, check_parent ppid c (w k) = some false) ∧
      (child_loop w ppid cmdline fuel).2 = .returned ∧
      (child_loop w ppid cmdline fuel).1.length = k + 1 ∧
      (main_child env w fuel pid ppid cmdline fs).outcome = .exited 0 ∧
      (main_child env w fuel pid ppid cmdline fs).pidfile =
        (full_path logname (fmt_d ppid)).take (PATH_MAX - 1) ∧
      (main_child env w fuel pid ppid cmdline fs).fs.lookup
        (main_child env w fuel pid ppid cmdline fs).pidfile = none ∧
      (write_pidfile env pid ((full_path logname (fmt_d ppid)).take (PATH_MAX - 1)) fs).1 = 0 ∧
      (write_pidfile env pid ((full_path logname (fmt_d ppid)).take (PATH_MAX - 1)) fs).2.lookup
        ((full_path logname (fmt_d ppid)).take (PATH_MAX - 1)) = some (.reg (fmt_d pid ++ [NL])) ∧
      (∀ n, n ≤ k →
        (main_child env w n pid ppid cmdline fs).outcome = .running ∧
          (main_child env w n pid ppid cmdline fs).fs =
            (write_pidfile env pid ((full_path logname (fmt_d ppid)).take (PATH_MAX - 1)) fs).2 ∧
          (main_child env w n pid ppid cmdline fs).fs.lookup
            ((full_path logname (fmt_d ppid)).take (PATH_MAX - 1)) =
              some (.reg (fmt_d pid ++ [NL]))) ∧
      (main_child env w fuel pid ppid cmdline fs).passes = (child_loop w ppid cmdline fuel).1 ∧
      (main_child env w fuel pid ppid cmdline fs).fs =
        destroy_pidfile ((full_path logname (fmt_d ppid)).take (PATH_MAX - 1))
          (write_pidfile env pid ((full_path logname (fmt_d ppid)).take (PATH_MAX - 1)) fs).2 := by
  have hcp : ∀ c, check_parent ppid c (w k) = some false :=
    fun c => check_parent_no_process ppid c (w k) hgone
  have hloop := (child_loop_from_exit_iff w ppid cmdline fuel 0 0 k hfuel).mpr
    ⟨fun t ht => by rw [Nat.zero_add]; exact halive t ht, by rw [Nat.zero_add]; exact hcp cmdline⟩
  have hret : (child_loop w ppid cmdline fuel).2 = .returned := hloop.1
  have hfile : (full_path logname (fmt_d ppid)).take (PATH_MAX - 1) ≠ [] :=
    snprintf_path_ne_nil logname (fmt_d ppid)
  obtain ⟨h0, hrec, _⟩ := write_pidfile_fresh env logname henv pid _ fs hfile hfree hdir
  have hd := destroy_pidfile_no_record _ _ _ hrec
  have hrunning : ∀ n, n ≤ k → (child_loop w ppid cmdline n).2 = .running := by
    intro n hn
    have h := child_loop_from_alive w ppid cmdline n 0
      (fun j hj => by rw [Nat.zero_add]; exact halive j (by omega))
    have h2 : child_loop w ppid cmdline n = ((List.range' 0 n).map (alive_pass w), .running) := h
    rw [h2]
  refine ⟨hcp, hret, hloop.2, ?_, ?_, ?_, h0, hrec, ?_, ?_, ?_⟩
  all_goals
    have hp : full_path logname (fmt_d ppid) = tmp_authd ++ logname ++ [slash] ++ fmt_d ppid := rfl
    rw [hp] at h0 hd hrec
    try rw [hp]
  · unfold main_child
    simp only [pidfilename, henv, snprintf, h0, if_true, hret]
  · unfold main_child
    simp only [pidfilename, henv, snprintf, h0, if_true, hret]
  · unfold main_child
    simp only [pidfilename, henv, snprintf, h0, if_true, hret]
    exact hd
  · intro n hn
    have hr := hrunning n hn
    unfold main_child
    simp only [pidfilename, henv, snprintf, h0, if_true, hr]
    exact ⟨trivial, trivial, hrec⟩
  · unfold main_child
    simp only [pidfilename, henv, snprintf, h0, if_true, hret]
  · unfold main_child
    simp only [pidfilename, henv, snprintf, h0, if_true, hret]

theorem main_child_session_gone_witness :
    (∀ c, check_parent 42 c (sample_world 60) = some false) ∧
      (child_loop sample_world 42 sample_captured 100).2 = .returned ∧
      (child_loop sample_world 42 sample_captured 100).1.length = 60 + 1 ∧
      (main_child sample_env sample_world 100 100 42 sample_captured sample_fs).outcome = .exited 0 ∧
      (main_child sample_env sample_world 100 100 42 sample_captured sample_fs).pidfile =
        (full_path ['u'] (fmt_d 42)).take (PATH_MAX - 1) ∧
      (main_child sample_env sample_world 100 100 42 sample_captured sample_fs).fs.lookup
        (main_child sample_env sample_world 100 100 42 sample_captured sample_fs).pidfile = none ∧
      (write_pidfile sample_env 100 ((full_path ['u'] (fmt_d 42)).take (PATH_MAX - 1)) sample_fs).1 = 0 ∧
      (write_pidfile sample_env 100 ((full_path ['u'] (fmt_d 42)).take (PATH_MAX - 1))
        sample_fs).2.lookup ((full_path ['u'] (fmt_d 42)).take (PATH_MAX - 1)) =
          some (.reg (fmt_d 100 ++ [NL])) ∧
      (∀ n, n ≤ 60 →
        (main_child sample_env sample_world n 100 42 sample_captured sample_fs).outcome = .running ∧
          (main_child sample_env sample_world n 100 42 sample_captured sample_fs).fs =
            (write_pidfile sample_env 100 ((full_path ['u'] (fmt_d 42)).take (PATH_MAX - 1))
              sample_fs).2 ∧
          (main_child sample_env sample_world n 100 42 sample_captured sample_fs).fs.lookup
            ((full_path ['u'] (fmt_d 42)).take (PATH_MAX - 1)) =
              some (.reg (fmt_d 100 ++ [NL]))) ∧
      (main_child sample_env sample_world 100 100 42 sample_captured sample_fs).passes =
        (child_loop sample_world 42 sample_captured 100).1 ∧
      (main_child sample_env sample_world 100 100 42 sample_captured sample_fs).fs =
        destroy_pidfile ((full_path ['u'] (fmt_d 42)).take (PATH_MAX - 1))
          (write_pidfile sample_env 100 ((full_path ['u'] (fmt_d 42)).take (PATH_MAX - 1))
            sample_fs).2 :=
  main_child_session_gone sample_env ['u'] rfl sample_world 100 60 100 42 sample_captured sample_fs
    (by decide) (Or.inr ⟨by decide, by decide⟩) (by decide) sample_world_alive rfl

/-! ## Signals -/

/-- What the handler does when a signal reaches it: for every daemon that holds
its pidfile record, `SIGTERM` at any point of the polling cycle, and `SIGINT`
at any point outside a call of `system`, run `sig_handler`: the process exits
with status 0, no entry is left at the pidfile path, and nothing more of the
loop body is run; `SIGHUP` leaves the daemon running as it is. -/
theorem signal_releases_pidfile (d : Daemon) (data : List Char)
    (hrun : d.exited = none) (hrec : d.fs.lookup d.pidfile = some (.reg data)) :
    (∀ sig, sig = Signal.SIGTERM ∨ (sig = Signal.SIGINT ∧ d.point.in_system = false) →
      (deliver sig d).exited = some 0 ∧ (deliver sig d).fs.lookup d.pidfile = none ∧
        (deliver sig d).done = d.done ∧ (deliver sig d).loop_count = d.loop_count) ∧
      deliver .SIGHUP d = d ∧ (deliver .SIGHUP d).exited = none := by
  have hup : deliver .SIGHUP d = d := by
    unfold deliver disposition_at
    simp [disposition]
  refine ⟨?_, hup, by rw [hup]; exact hrun⟩
  intro sig hsig
  have hd := destroy_pidfile_no_record d.pidfile d.fs data hrec
  have hdel : deliver sig d = sig_handler d := by
    unfold deliver disposition_at
    rcases hsig with h | ⟨h, hp⟩
    · subst h; simp [disposition]
    · subst h; simp [disposition, hp]
  rw [hdel]
  exact ⟨rfl, hd, rfl, rfl⟩

/-- C7: the code does not release the pidfile on every `SIGINT`.  A daemon that
holds its record and is waiting for `kinit -R` inside `system` has `SIGINT`
ignored, so a `SIGINT` arriving then runs no handler: the process keeps running
and the record stays.  In the same state `SIGTERM`, registered with the same
handler, exits with status 0 and leaves no entry at the path, and so does
`SIGINT` while the daemon sleeps. -/
theorem sigint_ignored_during_renewal :
    sample_daemon_renewing.fs.lookup sample_daemon_renewing.pidfile =
        some (.reg ['1', '0', '0', NL]) ∧
      (deliver .SIGINT sample_daemon_renewing).exited = none ∧
      (deliver .SIGINT sample_daemon_renewing).fs.lookup sample_daemon_renewing.pidfile =
        some (.reg ['1', '0', '0', NL]) ∧
      (deliver .SIGTERM sample_daemon_renewing).exited = some 0 ∧
      (deliver .SIGTERM sample_daemon_renewing).fs.lookup sample_daemon_renewing.pidfile = none ∧
      (deliver .SIGINT sample_daemon).exited = some 0 ∧
      (deliver .SIGINT sample_daemon).fs.lookup sample_daemon.pidfile = none := by
  decide

end Authd
